import Mathlib

/-!
Shallow embedding of the EV charging network capacity-planning code
(`src/models/geolocation.py`, `src/models/site.py`, `src/models/network.py`,
`src/algorithm/optimized_network.py`) together with theorems checking the
natural-language specification against it.

Modelling conventions:
* Python floats are modelled exactly: as rationals (`ℚ`) where the code only
  performs field arithmetic, and as reals (`ℝ`) where `np.exp` appears.
  Most definitions are generic over a `LinearOrderedField` so that the same
  embedding can be instantiated at `ℚ` (computable, used for concrete
  evaluation) and at `ℝ` (used for the `exp`-based formulas).
* Station counts, capacities, budgets and supplies are natural numbers in the
  model; the code manipulates them as Python ints.
* The external mixed-integer solver and the haversine distance function are
  out of scope per the specification; they enter only through their interface
  (a binary assignment, and an abstract distance function, respectively).
-/

namespace EVNet

/-- Latitude/longitude point, from `src/models/geolocation.py`.  Coordinates
are modelled as rationals. -/
structure GeoLocation where
  lat : ℚ
  long : ℚ
deriving DecidableEq

/-- The check actually executed by `GeoLocation.validate` in the source: both
`assert` statements test `self.lat` (the second line reads
`assert -180 <= self.lat <= 180`, not `self.long`), so longitude is never
examined.  The result is `true` exactly when no assertion fires. -/
def GeoLocation.validate (g : GeoLocation) : Bool :=
  decide (-90 ≤ g.lat ∧ g.lat ≤ 90) && decide (-180 ≤ g.lat ∧ g.lat ≤ 180)

/-- The validation described by the specification: latitude within
[-90, 90] and longitude within [-180, 180]. -/
def GeoLocation.validateSpec (g : GeoLocation) : Bool :=
  decide (-90 ≤ g.lat ∧ g.lat ≤ 90) && decide (-180 ≤ g.long ∧ g.long ≤ 180)

/-- Charging site, from `src/models/site.py`.  The economic attributes are
values of the ambient field `α`; station count and capacity bounds are
naturals.  `effective_arrival_rate` is initialised to `arrival_rate` by the
Python constructor and recomputed by the network. -/
structure Site (α : Type) where
  fixed_cost : α
  variable_cost : α
  unit_revenue : α
  arrival_rate : α
  effective_arrival_rate : α
  mean_charging_time : α
  num_charging_stations : ℕ
  max_capacity : ℕ
  min_capacity : ℕ
  geolocation : Option GeoLocation
  name : Option String
deriving DecidableEq

variable {α : Type} [LinearOrderedField α]

/-- Offered load `utilization_factor = effective_arrival_rate * mean_charging_time`
from `EVChargingSite.expected_utilization`. -/
def Site.utilization_factor (s : Site α) : α :=
  s.effective_arrival_rate * s.mean_charging_time

/-- Numerator of `expected_utilization`: the sum over `k in range(1, c + 1)` of
`rho ^ k / (k - 1)!`. -/
def utilNum (ρ : α) (c : ℕ) : α :=
  ∑ k in Finset.Icc 1 c, ρ ^ k / (Nat.factorial (k - 1) : α)

/-- Normalization constant of `expected_utilization`:
`1 + sum over k in range(1, c + 1) of rho ^ k / k!`. -/
def utilDen (ρ : α) (c : ℕ) : α :=
  1 + ∑ k in Finset.Icc 1 c, ρ ^ k / (Nat.factorial k : α)

/-- `EVChargingSite.expected_utilization` from `src/models/site.py`. -/
def Site.expected_utilization (s : Site α) : α :=
  utilNum s.utilization_factor s.num_charging_stations /
    utilDen s.utilization_factor s.num_charging_stations

/-- `EVChargingSite.profit`:
`unit_revenue * expected_utilization() - (variable_cost * num_charging_stations - fixed_cost)`. -/
def Site.profit (s : Site α) : α :=
  s.unit_revenue * s.expected_utilization -
    (s.variable_cost * (s.num_charging_stations : α) - s.fixed_cost)

/-- A concrete rational-valued site used for witnesses: zero costs and
revenue 1, arrival rate 1, service time 1, one station, capacity bounds
[0, 1]. -/
def siteW : Site ℚ :=
  ⟨0, 0, 1, 1, 1, 1, 1, 1, 0, none, none⟩

/-! Positional accessors.  The Python code indexes `self.sites` by position;
out-of-range indices (which would raise in Python but never occur in the
program) are mapped to the neutral defaults `0`. -/

/-- Station count of the site at index `i` (0 when out of range). -/
def countAt (sites : List (Site α)) (i : ℕ) : ℕ :=
  ((sites[i]?).map Site.num_charging_stations).getD 0

/-- Effective arrival rate of the site at index `i`. -/
def effAt (sites : List (Site α)) (i : ℕ) : α :=
  ((sites[i]?).map Site.effective_arrival_rate).getD 0

/-- Raw arrival rate of the site at index `i`. -/
def arrivalAt (sites : List (Site α)) (i : ℕ) : α :=
  ((sites[i]?).map Site.arrival_rate).getD 0

/-- Fixed cost of the site at index `i`. -/
def fixedAt (sites : List (Site α)) (i : ℕ) : α :=
  ((sites[i]?).map Site.fixed_cost).getD 0

/-- Variable cost of the site at index `i`. -/
def varCostAt (sites : List (Site α)) (i : ℕ) : α :=
  ((sites[i]?).map Site.variable_cost).getD 0

/-- Unit revenue of the site at index `i`. -/
def revAt (sites : List (Site α)) (i : ℕ) : α :=
  ((sites[i]?).map Site.unit_revenue).getD 0

/-- Mean charging time of the site at index `i`. -/
def timeAt (sites : List (Site α)) (i : ℕ) : α :=
  ((sites[i]?).map Site.mean_charging_time).getD 0

/-- Maximum capacity of the site at index `i`. -/
def maxCapAt (sites : List (Site α)) (i : ℕ) : ℕ :=
  ((sites[i]?).map Site.max_capacity).getD 0

/-- Minimum capacity of the site at index `i`. -/
def minCapAt (sites : List (Site α)) (i : ℕ) : ℕ :=
  ((sites[i]?).map Site.min_capacity).getD 0

/-! The network aggregate, from `src/models/network.py`. -/

/-- `EVChargingNetwork.total_charging_stations`: the sum of all station
counts. -/
def total_charging_stations (sites : List (Site α)) : ℕ :=
  (sites.map Site.num_charging_stations).sum

/-- `EVChargingNetwork.total_profit`: the sum of all site profits. -/
def total_profit (sites : List (Site α)) : α :=
  (sites.map Site.profit).sum

/-- Profit of the site at index `i` (0 when out of range). -/
def profitAt (sites : List (Site α)) (i : ℕ) : α :=
  ((sites[i]?).map Site.profit).getD 0

/-- The divisor computed inside `update_effective_arrival_rates` for the site
at index `i` holding `n` stations:
`(np.exp(-gamma * D[i] ** 2) * np.array([other.num / site.num for other in sites])).sum()`.
The spatial weight `exp(-gamma * D[i, j] ** 2)` is abstracted as `W i j` so
that the same loop body can be instantiated at `ℝ` with the actual
exponential and at `ℚ` for computable evaluation. -/
def spillSum (W : ℕ → ℕ → α) (sites : List (Site α)) (i n : ℕ) : α :=
  ((List.range sites.length).map fun j => W i j * ((countAt sites j : α) / (n : α))).sum

/-- The loop of `update_effective_arrival_rates` with the spatial weight
abstracted as `W`.  The Python loop writes only `effective_arrival_rate` of
site `i`, reading the (unchanged) station counts of the whole list, so a
per-index map is an exact rendering; a site with `num_charging_stations == 0`
is skipped (`if site.num_charging_stations:`), keeping its previous rate. -/
def update_eff_rates (W : ℕ → ℕ → α) (sites : List (Site α)) : List (Site α) :=
  sites.mapIdx fun i s =>
    if s.num_charging_stations = 0 then s
    else { s with effective_arrival_rate :=
            s.arrival_rate / spillSum W sites i s.num_charging_stations }

/-- `EVChargingNetwork.update_effective_arrival_rates` from
`src/models/network.py`, with the concrete numpy weight
`np.exp(-self.gamma * self.distance_matrix[i] ** 2)`. -/
noncomputable def update_effective_arrival_rates (gamma : ℝ) (D : ℕ → ℕ → ℝ)
    (sites : List (Site ℝ)) : List (Site ℝ) :=
  update_eff_rates (fun i j => Real.exp (-gamma * D i j ^ 2)) sites

/-- Location of index `i` in a location list (default (0, 0) out of range). -/
def locAt (locs : List GeoLocation) (i : ℕ) : GeoLocation :=
  (locs[i]?).getD ⟨0, 0⟩

/-- `EVChargingNetwork._compute_distance_matrix`: the matrix starts as
`np.zeros` and only the entries `i < j` (and symmetrically `j < i`) are
filled with the haversine distance, so the diagonal stays `0`.  The external
haversine function is abstracted as `dist`. -/
def distance_matrix (dist : GeoLocation → GeoLocation → ℝ) (locs : List GeoLocation) :
    ℕ → ℕ → ℝ := fun i j =>
  if i = j then 0
  else if i < j then dist (locAt locs i) (locAt locs j)
  else dist (locAt locs j) (locAt locs i)

/-! The optimization engine, from `src/algorithm/optimized_network.py`. -/

/-- Reference coverage point (`ReferenceGeoLocation`), reduced to the data the
feasibility predicate reads: the resolved neighborhood site indices and the
minimum supply. -/
structure ReferenceLocation where
  neighborhood_sites : List ℕ
  min_supply : ℕ
deriving DecidableEq

/-- Total station count over the neighborhood sites of a reference location:
`sum(self.sites[i].num_charging_stations for i in location.neighborhood_sites)`. -/
def neighborhoodSupply (sites : List (Site α)) (r : ReferenceLocation) : ℕ :=
  (r.neighborhood_sites.map (countAt sites)).sum

/-- What `OptimizedEVChargingNetwork._is_feasible` actually computes.  The
source expression is

`total_charging_stations() <= budget & np.all(g1) & np.all(g2) & np.all(g3) & np.all(g4)`

where each `gk` is a generator expression.  In Python, `&` binds tighter than
`<=`, and `np.all` applied to a generator object does not iterate it: it
wraps the generator in a 0-d object array whose truth value is `True` (this
is also why the misspelled attributes `site.max_capaicty` / `site.min_capaicty`
inside the generators never raise).  Hence the expression evaluates to
`total <= (budget & 1 & 1 & 1 & 1)`, i.e. the total station count compared
against the lowest bit of the budget. -/
def is_feasible (budget : ℕ) (sites : List (Site α)) : Bool :=
  decide (total_charging_stations sites ≤ budget % 2)

/-- The feasibility predicate as the specification states it: total stations
within budget, every station count within its site's `[min_capacity,
max_capacity]`, and every reference location's neighborhood supply at least
its `min_supply`.  The fourth condition of the specification (every station
count is a non-negative integer) is automatic in the model because counts are
naturals. -/
def is_feasible_spec (budget : ℕ) (sites : List (Site α))
    (refs : List ReferenceLocation) : Bool :=
  decide (total_charging_stations sites ≤ budget) &&
    sites.all (fun s => decide (s.num_charging_stations ≤ s.max_capacity)) &&
    sites.all (fun s => decide (s.min_capacity ≤ s.num_charging_stations)) &&
    refs.all (fun r => decide (r.min_supply ≤ neighborhoodSupply sites r))

/-- Station count assigned to site `i` at the end of `_solve_relaxation`:
`site.num_charging_stations = sum(z[i, k] for k in range(num_stations))`,
where `z` holds the solver's returned variable values (floats, here
rationals). -/
def relaxed_station_count (z : ℕ → ℕ → ℚ) (numStations i : ℕ) : ℚ :=
  ∑ k in Finset.range numStations, z i k

/-- Minimum of a list of reals, as computed by `np.min` on a non-empty
array (the value on `[]` is an arbitrary default; `np.min` of an empty array
raises, and the engine always passes `num_sites ≥ 1` entries). -/
noncomputable def listMin : List ℝ → ℝ
  | [] => 0
  | [x] => x
  | x :: y :: xs => min x (listMin (y :: xs))

/-- Adjusted per-site capacity cap from `_solve_relaxation`:
`min(site.max_capacity, np.min(self.epsilon * np.exp(self.gamma * self.distance_matrix[i] ** 2)))`.
Note that `self.distance_matrix[i]` is the entire row, including the zero
diagonal entry `j = i`. -/
noncomputable def adjusted_max_capacity (gamma epsilon : ℝ) (D : ℕ → ℕ → ℝ)
    (sites : List (Site ℝ)) (i : ℕ) : ℝ :=
  min (maxCapAt sites i : ℝ)
    (listMin ((List.range sites.length).map fun j => epsilon * Real.exp (gamma * D i j ^ 2)))

/-- The adjusted capacity cap as worded by the specification: the minimum is
taken only over the sites `j` distinct from `i`. -/
noncomputable def adjusted_max_capacity_spec (gamma epsilon : ℝ) (D : ℕ → ℕ → ℝ)
    (sites : List (Site ℝ)) (i : ℕ) : ℝ :=
  min (maxCapAt sites i : ℝ)
    (listMin (((List.range sites.length).filter fun j => j ≠ i).map
      fun j => epsilon * Real.exp (gamma * D i j ^ 2)))

/-! Pairwise local search (`_optimize_pair` and `_local_search`). -/

/-- Write station count `n` into position `i` (no-op out of range, which
never occurs in the program). -/
def setCount (sites : List (Site α)) (i n : ℕ) : List (Site α) :=
  match sites[i]? with
  | some s => sites.set i { s with num_charging_stations := n }
  | none => sites

/-- The integers of Python `range(lo, hi + 1)` where the upper bound `hi` may
be a negative integer (then the range is empty). -/
def rangeIcc (lo : ℕ) (hi : ℤ) : List ℕ :=
  List.range' lo (hi + 1 - lo).toNat

/-- Candidate station-count pairs enumerated by the two nested loops of
`_optimize_pair`: `z in range(site.min_capacity, site.max_capacity + 1)` and
`z_ in range(neighbor.min_capacity, min(neighbor.max_capacity, num_available_stations - z) + 1)`. -/
def pairCandidates (minS maxS minN maxN avail : ℕ) : List (ℕ × ℕ) :=
  (rangeIcc minS (maxS : ℤ)).flatMap fun z =>
    (rangeIcc minN (min (maxN : ℤ) ((avail : ℤ) - (z : ℤ)))).map fun z2 => (z, z2)

/-- Mutable state carried through the candidate loop of `_optimize_pair`:
the (mutated) site list, the best pair found, the best objective value. -/
structure PairState (α : Type) where
  cur : List (Site α)
  best : ℕ × ℕ
  bestObj : α

/-- One iteration of the inner loop body of `_optimize_pair`:
set the two station counts (sequentially, so passing the same index twice
leaves the second value, exactly as Python tuple assignment on an aliased
object), test `_is_feasible`, and if feasible refresh the effective rates and
keep the pair when the total profit strictly improves.  The mutated list is
carried over even for infeasible candidates, as in the source. -/
def optPairStep (W : ℕ → ℕ → α) (budget : ℕ) (si ni : ℕ)
    (a : PairState α) (c : ℕ × ℕ) : PairState α :=
  if is_feasible budget (setCount (setCount a.cur si c.1) ni c.2) then
    if a.bestObj < total_profit (update_eff_rates W (setCount (setCount a.cur si c.1) ni c.2))
    then ⟨update_eff_rates W (setCount (setCount a.cur si c.1) ni c.2), c,
      total_profit (update_eff_rates W (setCount (setCount a.cur si c.1) ni c.2))⟩
    else ⟨update_eff_rates W (setCount (setCount a.cur si c.1) ni c.2), a.best, a.bestObj⟩
  else ⟨setCount (setCount a.cur si c.1) ni c.2, a.best, a.bestObj⟩

/-- Initial loop state of `_optimize_pair`: the incumbent pair (the two
current counts) and the current total profit. -/
def optPairInit (sites : List (Site α)) (si ni : ℕ) : PairState α :=
  ⟨sites, (countAt sites si, countAt sites ni), total_profit sites⟩

/-- The candidate loop of `_optimize_pair`, run to completion. -/
def optPairRun (W : ℕ → ℕ → α) (budget : ℕ) (sites : List (Site α))
    (si ni : ℕ) : PairState α :=
  (pairCandidates (minCapAt sites si) (maxCapAt sites si) (minCapAt sites ni)
      (maxCapAt sites ni) (countAt sites si + countAt sites ni)).foldl
    (optPairStep W budget si ni) (optPairInit sites si ni)

/-- `OptimizedEVChargingNetwork._optimize_pair` on the sites at indices `si`
and `ni`: enumerate the candidates, then commit the best pair, refresh the
effective rates, and return the new site list with the best objective
value. -/
def optimize_pair (W : ℕ → ℕ → α) (budget : ℕ) (sites : List (Site α))
    (si ni : ℕ) : List (Site α) × α :=
  (update_eff_rates W
      (setCount (setCount (optPairRun W budget sites si ni).cur si
        (optPairRun W budget sites si ni).best.1) ni
        (optPairRun W budget sites si ni).best.2),
    (optPairRun W budget sites si ni).bestObj)

/-- One iteration of `_local_search` after the two random indices have been
drawn: the source calls
`self._optimize_pair(site=self.sites[j], neighbor=self.sites[j])`,
passing the distance-weighted sample `j` twice; the uniformly sampled first
index `i` is never used. -/
def local_search_iter (W : ℕ → ℕ → α) (budget : ℕ) (sites : List (Site α))
    (i j : ℕ) : List (Site α) × α :=
  optimize_pair W budget sites j j

/-- The profit of a site written as a function of its individual attributes;
used to compare states that agree on everything a profit can depend on. -/
def profitFormula (rev eff time cvar fixed : α) (n : ℕ) : α :=
  rev * (utilNum (eff * time) n / utilDen (eff * time) n) - (cvar * (n : α) - fixed)

/-- Two site lists of the same length whose sites agree on all static fields
(everything except the station count and the effective arrival rate). -/
def SameShape (s t : List (Site α)) : Prop :=
  s.length = t.length ∧
    (∀ i, fixedAt s i = fixedAt t i) ∧ (∀ i, varCostAt s i = varCostAt t i) ∧
    (∀ i, revAt s i = revAt t i) ∧ (∀ i, arrivalAt s i = arrivalAt t i) ∧
    (∀ i, timeAt s i = timeAt t i) ∧ (∀ i, maxCapAt s i = maxCapAt t i) ∧
    (∀ i, minCapAt s i = minCapAt t i)

/-- Loop invariant of the candidate fold inside `_optimize_pair`, relative to
the state `pre` at entry: the current list still has the entry statics; only
the two selected positions were overwritten; the best objective is the total
profit of the refreshed best candidate applied to `pre`; the best objective
never drops below the entry profit; and the best pair is still the incumbent
unless the objective strictly improved. -/
def PairInv (W : ℕ → ℕ → α) (pre : List (Site α)) (si ni : ℕ) (a : PairState α) : Prop :=
  SameShape pre a.cur ∧
    (∀ k, k ≠ si → k ≠ ni → countAt a.cur k = countAt pre k) ∧
    a.bestObj =
      total_profit (update_eff_rates W (setCount (setCount pre si a.best.1) ni a.best.2)) ∧
    total_profit pre ≤ a.bestObj ∧
    (a.best = (countAt pre si, countAt pre ni) ∨ total_profit pre < a.bestObj)

/-! Concrete networks used by counterexamples and witnesses. -/

/-- A simple computable spatial weight (used only to instantiate `W` in
closed evaluations; the claims proved with it hold for every `W`). -/
def Wdiag : ℕ → ℕ → ℚ := fun i j => if i = j then 1 else 0

/-- Rational site used in C1: one station, bounds [0, 5]. -/
def siteA : Site ℚ :=
  ⟨0, 0, 0, 1, 1, 1, 1, 5, 0, none, none⟩

/-- First site of the two-site rational network: no revenue, variable cost 1
per station, one station, bounds [0, 1]. -/
def siteCa : Site ℚ :=
  ⟨0, 1, 0, 1, 1, 1, 1, 1, 0, none, none⟩

/-- Second site of the two-site rational network: revenue 1 at no cost, zero
stations, bounds [0, 1]. -/
def siteCb : Site ℚ :=
  ⟨0, 0, 1, 1, 1, 1, 0, 1, 0, none, none⟩

/-- Two-site rational network: site 0 earns no revenue and pays variable
cost 1 per station; site 1 earns revenue 1 at no cost.  Effective rates are
consistent with `Wdiag`. -/
def sitesC2 : List (Site ℚ) :=
  [siteCa, siteCb]

/-- Real-valued one-site network for the effective-arrival-rate claims. -/
noncomputable def siteR : Site ℝ :=
  ⟨0, 0, 0, 2, 2, 1, 1, 1, 0, none, none⟩

/-- Two identical real-valued sites with `max_capacity = 10`. -/
noncomputable def sitesR2 : List (Site ℝ) :=
  [⟨0, 0, 0, 1, 1, 1, 0, 10, 0, none, none⟩,
   ⟨0, 0, 0, 1, 1, 1, 0, 10, 0, none, none⟩]

/-- Distance matrix of two sites at distance 1 from each other. -/
def D2 : ℕ → ℕ → ℝ := fun i j => if i = j then 0 else 1

/-- A binary solver assignment used as a witness: slot 0 selected, all other
slots unselected. -/
def zBin : ℕ → ℕ → ℚ := fun _ k => if k = 0 then 1 else 0

end EVNet

namespace EVNet

variable {α : Type} [LinearOrderedField α]

/-! General access lemmas for the embedding. -/

/-- Sum of a function mapped over `List.range` as a `Finset` sum. -/
theorem sum_map_range {M : Type} [AddCommMonoid M] (n : ℕ) (f : ℕ → M) :
    ((List.range n).map f).sum = ∑ j in Finset.range n, f j := by
  induction n with
  | zero => simp
  | succ n ih => rw [List.range_succ, List.map_append, List.sum_append,
      Finset.sum_range_succ, ih]; simp

/-- Optional access through `List.mapIdx`. -/
theorem getElem?_mapIdx {β γ : Type} (l : List β) (f : ℕ → β → γ) (i : ℕ) :
    (l.mapIdx f)[i]? = (l[i]?).map (f i) := by
  by_cases h : i < l.length
  · have h2 : i < (l.mapIdx f).length := by simpa using h
    rw [List.getElem?_eq_getElem h, List.getElem?_eq_getElem h2]
    simp [List.getElem_mapIdx]
  · have h1 : l.length ≤ i := Nat.le_of_not_lt h
    rw [List.getElem?_eq_none h1, List.getElem?_eq_none (by simpa using h1)]
    rfl

/-- Optional access through `setCount`. -/
theorem getElem?_setCount (l : List (Site α)) (i n k : ℕ) :
    (setCount l i n)[k]? =
      if i = k then (l[k]?).map (fun s => { s with num_charging_stations := n })
      else l[k]? := by
  unfold setCount
  cases hl : l[i]? with
  | none =>
    have hlen : l.length ≤ i := by
      by_contra h
      rw [List.getElem?_eq_getElem (Nat.lt_of_not_le h)] at hl
      exact Option.noConfusion hl
    by_cases hik : i = k
    · subst hik
      rw [if_pos rfl, hl]; rfl
    · rw [if_neg hik]
  | some s =>
    rw [List.getElem?_set]
    by_cases hik : i = k
    · subst hik
      have hlen : i < l.length := by
        by_contra h
        rw [List.getElem?_eq_none (Nat.le_of_not_lt h)] at hl
        exact Option.noConfusion hl
      rw [if_pos rfl, if_pos rfl, if_pos hlen, hl]; rfl
    · rw [if_neg hik, if_neg hik]

/-- Length is preserved by `setCount`. -/
theorem length_setCount (l : List (Site α)) (i n : ℕ) :
    (setCount l i n).length = l.length := by
  unfold setCount
  cases l[i]? <;> simp

/-- Length is preserved by `update_eff_rates`. -/
theorem length_update_eff_rates (W : ℕ → ℕ → α) (l : List (Site α)) :
    (update_eff_rates W l).length = l.length := by
  simp [update_eff_rates]

/-- Optional access through `update_eff_rates`. -/
theorem getElem?_update_eff_rates (W : ℕ → ℕ → α) (l : List (Site α)) (i : ℕ) :
    (update_eff_rates W l)[i]? =
      (l[i]?).map (fun s =>
        if s.num_charging_stations = 0 then s
        else { s with effective_arrival_rate :=
                s.arrival_rate / spillSum W l i s.num_charging_stations }) := by
  unfold update_eff_rates
  exact getElem?_mapIdx l _ i

/-- An accessor that ignores the station count is unchanged by `setCount`. -/
theorem accessor_setCount {β : Type} (f : Site α → β) (d : β)
    (hf : ∀ (s : Site α) (n : ℕ), f { s with num_charging_stations := n } = f s)
    (l : List (Site α)) (i n k : ℕ) :
    (((setCount l i n)[k]?).map f).getD d = ((l[k]?).map f).getD d := by
  rw [getElem?_setCount]
  split
  · cases l[k]? with
    | none => rfl
    | some s => simp [hf]
  · rfl

/-- An accessor that ignores the effective arrival rate is unchanged by
`update_eff_rates`. -/
theorem accessor_update {β : Type} (f : Site α → β) (d : β)
    (hf : ∀ (s : Site α) (r : α), f { s with effective_arrival_rate := r } = f s)
    (W : ℕ → ℕ → α) (l : List (Site α)) (k : ℕ) :
    (((update_eff_rates W l)[k]?).map f).getD d = ((l[k]?).map f).getD d := by
  rw [getElem?_update_eff_rates]
  cases l[k]? with
  | none => rfl
  | some s =>
    simp only [Option.map_some', Option.getD_some]
    split
    · rfl
    · exact hf s _

/-- Station counts are unchanged by `update_eff_rates`. -/
theorem countAt_update (W : ℕ → ℕ → α) (l : List (Site α)) (k : ℕ) :
    countAt (update_eff_rates W l) k = countAt l k :=
  accessor_update Site.num_charging_stations 0 (fun _ _ => rfl) W l k

/-- Station count after `setCount`. -/
theorem countAt_setCount (l : List (Site α)) (i n k : ℕ) :
    countAt (setCount l i n) k =
      if i = k then (if i < l.length then n else countAt l k) else countAt l k := by
  unfold countAt
  rw [getElem?_setCount]
  split
  · rename_i hik
    subst hik
    by_cases hk : i < l.length
    · rw [if_pos hk, List.getElem?_eq_getElem hk]
      rfl
    · rw [if_neg hk, List.getElem?_eq_none (Nat.le_of_not_lt hk)]
      rfl
  · rfl

/-- Writing a site's own station count back is a no-op. -/
theorem setCount_self (l : List (Site α)) (i : ℕ) :
    setCount l i (countAt l i) = l := by
  unfold setCount
  cases h : l[i]? with
  | none => rfl
  | some s =>
    have hc : countAt l i = s.num_charging_stations := by simp [countAt, h]
    show l.set i { s with num_charging_stations := countAt l i } = l
    rw [hc]
    show l.set i s = l
    apply List.ext_getElem?
    intro k
    rw [List.getElem?_set]
    by_cases hik : i = k
    · subst hik
      have hlen : i < l.length := by
        by_contra hcon
        rw [List.getElem?_eq_none (Nat.le_of_not_lt hcon)] at h
        exact Option.noConfusion h
      rw [if_pos rfl, if_pos hlen, h]
    · rw [if_neg hik]

/-- Effective arrival rate after `update_eff_rates`, through accessors. -/
theorem effAt_update (W : ℕ → ℕ → α) (l : List (Site α)) (i : ℕ) :
    effAt (update_eff_rates W l) i =
      if countAt l i = 0 then effAt l i
      else arrivalAt l i / spillSum W l i (countAt l i) := by
  unfold effAt
  rw [getElem?_update_eff_rates]
  cases h : l[i]? with
  | none =>
    have hc : countAt l i = 0 := by simp [countAt, h]
    rw [hc, if_pos rfl]
    rfl
  | some s =>
    have hc : countAt l i = s.num_charging_stations := by simp [countAt, h]
    simp only [Option.map_some', Option.getD_some, hc]
    split
    · rfl
    · simp [arrivalAt, h]

/-- Sum of a mapped list as a `Finset.range` sum over optional access. -/
theorem sum_map_getD {β M : Type} [AddCommMonoid M] (l : List β) (f : β → M) :
    (l.map f).sum = ∑ i in Finset.range l.length, ((l[i]?).map f).getD 0 := by
  induction l with
  | nil => simp
  | cons a l ih =>
    rw [List.map_cons, List.sum_cons, ih, List.length_cons, Finset.sum_range_succ']
    simp only [List.getElem?_cons_succ, List.getElem?_cons_zero, Option.map_some',
      Option.getD_some]
    exact add_comm _ _

/-- The total profit as a sum of per-index profits. -/
theorem total_profit_eq_sum (l : List (Site α)) :
    total_profit l = ∑ i in Finset.range l.length, profitAt l i :=
  sum_map_getD l Site.profit

/-- The total station count as a sum of per-index counts. -/
theorem total_stations_eq_sum (l : List (Site α)) :
    total_charging_stations l = ∑ i in Finset.range l.length, countAt l i :=
  sum_map_getD l Site.num_charging_stations

/-- A site with no stations has profit equal to its fixed cost. -/
theorem profit_of_no_stations (s : Site α) (h : s.num_charging_stations = 0) :
    s.profit = s.fixed_cost := by
  simp [Site.profit, Site.expected_utilization, utilNum, h]

/-- The spill sum only depends on the station counts and the length. -/
theorem spillSum_congr {s t : List (Site α)} (hlen : s.length = t.length)
    (hcnt : ∀ k, countAt s k = countAt t k) (W : ℕ → ℕ → α) (i n : ℕ) :
    spillSum W s i n = spillSum W t i n := by
  unfold spillSum
  rw [hlen, sum_map_range, sum_map_range]
  exact Finset.sum_congr rfl fun j _ => by rw [hcnt j]

/-- Per-index profit after a rate refresh, through accessors. -/
theorem profitAt_update (W : ℕ → ℕ → α) (l : List (Site α)) (i : ℕ)
    (h : i < l.length) :
    profitAt (update_eff_rates W l) i =
      if countAt l i = 0 then fixedAt l i
      else profitFormula (revAt l i) (arrivalAt l i / spillSum W l i (countAt l i))
        (timeAt l i) (varCostAt l i) (fixedAt l i) (countAt l i) := by
  obtain ⟨s, hs⟩ : ∃ s, l[i]? = some s := by
    rw [List.getElem?_eq_getElem h]
    exact ⟨_, rfl⟩
  have hc : countAt l i = s.num_charging_stations := by simp [countAt, hs]
  unfold profitAt
  rw [getElem?_update_eff_rates, hs]
  simp only [Option.map_some', Option.getD_some, hc]
  by_cases h0 : s.num_charging_stations = 0
  · rw [if_pos h0, if_pos h0, profit_of_no_stations _ h0]
    simp [fixedAt, hs]
  · rw [if_neg h0, if_neg h0]
    simp only [fixedAt, varCostAt, revAt, arrivalAt, timeAt, hs, Option.map_some',
      Option.getD_some]
    rfl

/-- C8: with `num_charging_stations = 0` both sums in `expected_utilization`
are empty, so the value is `0 / 1 = 0`, regardless of the other attributes. -/
theorem expected_utilization_of_no_stations (s : Site α)
    (h : s.num_charging_stations = 0) : s.expected_utilization = 0 := by
  simp [Site.expected_utilization, utilNum, utilDen, h]

/-- Witness for C8: a concrete site with zero stations has utilization 0. -/
theorem expected_utilization_of_no_stations_w :
    ({ siteW with num_charging_stations := 0 } : Site ℚ).num_charging_stations = 0 ∧
      ({ siteW with num_charging_stations := 0 } : Site ℚ).expected_utilization = 0 :=
  ⟨rfl, expected_utilization_of_no_stations { siteW with num_charging_stations := 0 } rfl⟩

/-- C9: `GeoLocation.validate` does not raise on latitude 0, longitude 200,
although the specification requires longitude within [-180, 180]: the source
asserts on `self.lat` twice (its own error message speaks of the longitude),
so an out-of-range longitude is never rejected. -/
theorem validate_ignores_longitude :
    GeoLocation.validate ⟨0, 200⟩ = true ∧ GeoLocation.validateSpec ⟨0, 200⟩ = false := by
  decide

/-- C6: for a site with a positive station count, the refreshed effective
arrival rate is the raw arrival rate divided by the spatially discounted sum
of relative station shares; a site with zero stations keeps its previous
effective arrival rate. -/
theorem update_effective_arrival_rates_formula (gamma : ℝ) (D : ℕ → ℕ → ℝ)
    (sites : List (Site ℝ)) (i : ℕ) :
    (countAt sites i ≠ 0 →
      effAt (update_effective_arrival_rates gamma D sites) i =
        arrivalAt sites i /
          ∑ j in Finset.range sites.length,
            Real.exp (-gamma * D i j ^ 2) *
              ((countAt sites j : ℝ) / (countAt sites i : ℝ))) ∧
    (countAt sites i = 0 →
      effAt (update_effective_arrival_rates gamma D sites) i = effAt sites i) := by
  constructor
  · intro h
    unfold update_effective_arrival_rates
    rw [effAt_update, if_neg h]
    unfold spillSum
    rw [sum_map_range]
  · intro h
    unfold update_effective_arrival_rates
    rw [effAt_update, if_pos h]

/-- Witness for C6: the single-site network with arrival rate 2 and one
station, constant-zero distances. -/
theorem update_effective_arrival_rates_formula_w :
    countAt [siteR] 0 ≠ 0 ∧
      effAt (update_effective_arrival_rates 1 (fun _ _ => 0) [siteR]) 0 =
        arrivalAt [siteR] 0 /
          ∑ j in Finset.range (List.length [siteR]),
            Real.exp (-1 * (0:ℝ) ^ 2) *
              ((countAt [siteR] j : ℝ) / (countAt [siteR] 0 : ℝ)) :=
  ⟨by decide,
    (update_effective_arrival_rates_formula 1 (fun _ _ => 0) [siteR] 0).1 (by decide)⟩

/-- C10: after a rate refresh over the code's distance matrix, a site with
stations never has an effective arrival rate above its raw arrival rate: the
divisor contains the site's own term `exp(-gamma * 0 ^ 2) * (n / n) = 1` and
all other terms are non-negative. -/
theorem effective_rate_le_arrival (gamma : ℝ) (dist : GeoLocation → GeoLocation → ℝ)
    (locs : List GeoLocation) (sites : List (Site ℝ)) (i : ℕ)
    (hg : 0 ≤ gamma) (ha : 0 ≤ arrivalAt sites i) (hn : countAt sites i ≠ 0) :
    effAt (update_effective_arrival_rates gamma (distance_matrix dist locs) sites) i ≤
      arrivalAt sites i := by
  have hlen : i < sites.length := by
    by_contra h
    have hnone : sites[i]? = none := List.getElem?_eq_none (Nat.le_of_not_lt h)
    exact hn (by simp [countAt, hnone])
  unfold update_effective_arrival_rates
  rw [effAt_update, if_neg hn]
  have hcast : ((countAt sites i : ℝ)) ≠ 0 := Nat.cast_ne_zero.mpr hn
  have hterm : Real.exp (-gamma * distance_matrix dist locs i i ^ 2) *
      ((countAt sites i : ℝ) / (countAt sites i : ℝ)) = 1 := by
    have hD : distance_matrix dist locs i i = 0 := by simp [distance_matrix]
    rw [hD, div_self hcast]
    norm_num [Real.exp_zero]
  have hS : 1 ≤ spillSum (fun i j => Real.exp (-gamma * distance_matrix dist locs i j ^ 2))
      sites i (countAt sites i) := by
    unfold spillSum
    rw [sum_map_range, ← hterm]
    apply Finset.single_le_sum
      (f := fun j => Real.exp (-gamma * distance_matrix dist locs i j ^ 2) *
        ((countAt sites j : ℝ) / (countAt sites i : ℝ)))
    · intro j _
      apply mul_nonneg (Real.exp_pos _).le
      exact div_nonneg (Nat.cast_nonneg _) (Nat.cast_nonneg _)
    · exact Finset.mem_range.mpr hlen
  exact div_le_self ha hS

/-- Witness for C10: the site with arrival rate 2 and one station keeps an
effective rate of at most 2. -/
theorem effective_rate_le_arrival_w :
    (0:ℝ) ≤ 1 ∧ 0 ≤ arrivalAt [siteR] 0 ∧ countAt [siteR] 0 ≠ 0 ∧
      effAt (update_effective_arrival_rates 1 (distance_matrix (fun _ _ => 0) []) [siteR]) 0 ≤
        arrivalAt [siteR] 0 := by
  have ha : arrivalAt [siteR] 0 = 2 := rfl
  refine ⟨by norm_num, by rw [ha]; norm_num, by decide, ?_⟩
  exact effective_rate_le_arrival 1 (fun _ _ => 0) [] [siteR] 0 (by norm_num)
    (by rw [ha]; norm_num) (by decide)

/-! Monotonicity of the Erlang-style utilization (C7). -/

/-- The normalization constant is at least 1, hence positive, for a
non-negative offered load. -/
theorem utilDen_pos (ρ : α) (hρ : 0 ≤ ρ) (c : ℕ) : 0 < utilDen ρ c := by
  unfold utilDen
  have h : 0 ≤ ∑ k in Finset.Icc 1 c, ρ ^ k / (Nat.factorial k : α) :=
    Finset.sum_nonneg fun k _ => div_nonneg (pow_nonneg hρ k) (Nat.cast_nonneg _)
  linarith

/-- The numerator of the utilization is non-negative for a non-negative
offered load. -/
theorem utilNum_nonneg (ρ : α) (hρ : 0 ≤ ρ) (c : ℕ) : 0 ≤ utilNum ρ c :=
  Finset.sum_nonneg fun k _ => div_nonneg (pow_nonneg hρ k) (Nat.cast_nonneg _)

/-- Key bound: the numerator is at most `(c + 1)` times the normalization
constant, because `rho ^ k / (k - 1)! = k * (rho ^ k / k!)` and `k ≤ c + 1`
throughout the sum. -/
theorem utilNum_le (ρ : α) (hρ : 0 ≤ ρ) (c : ℕ) :
    utilNum ρ c ≤ ((c : α) + 1) * utilDen ρ c := by
  have step : ∀ k ∈ Finset.Icc 1 c,
      ρ ^ k / (Nat.factorial (k - 1) : α) ≤ ((c : α) + 1) * (ρ ^ k / (Nat.factorial k : α)) := by
    intro k hk
    obtain ⟨hk1, hkc⟩ := Finset.mem_Icc.mp hk
    obtain ⟨m, rfl⟩ : ∃ m, k = m + 1 := ⟨k - 1, by omega⟩
    have hfne : (Nat.factorial m : α) ≠ 0 := Nat.cast_ne_zero.mpr (Nat.factorial_ne_zero m)
    have hm1 : ((m : α) + 1) ≠ 0 := by positivity
    have hfact : (Nat.factorial (m + 1) : α) = ((m : α) + 1) * (Nat.factorial m : α) := by
      rw [Nat.factorial_succ]
      push_cast
      ring
    have hm : ρ ^ (m + 1) / (Nat.factorial m : α) =
        ((m : α) + 1) * (ρ ^ (m + 1) / (Nat.factorial (m + 1) : α)) := by
      rw [hfact]
      field_simp
      ring
    have hred : (m + 1) - 1 = m := rfl
    rw [hred, hm]
    apply mul_le_mul_of_nonneg_right
    · have : (m : α) ≤ (c : α) := Nat.cast_le.mpr (by omega)
      linarith
    · exact div_nonneg (pow_nonneg hρ _) (Nat.cast_nonneg _)
  calc utilNum ρ c ≤ ∑ k in Finset.Icc 1 c, ((c : α) + 1) * (ρ ^ k / (Nat.factorial k : α)) :=
        Finset.sum_le_sum step
    _ = ((c : α) + 1) * ∑ k in Finset.Icc 1 c, ρ ^ k / (Nat.factorial k : α) := by
        rw [Finset.mul_sum]
    _ ≤ ((c : α) + 1) * utilDen ρ c := by
        apply mul_le_mul_of_nonneg_left
        · unfold utilDen
          linarith
        · positivity

/-- The utilization ratio is non-decreasing in the station count. -/
theorem util_ratio_mono (ρ : α) (hρ : 0 ≤ ρ) (c : ℕ) :
    utilNum ρ c / utilDen ρ c ≤ utilNum ρ (c + 1) / utilDen ρ (c + 1) := by
  have hd := utilDen_pos ρ hρ c
  have hd1 := utilDen_pos ρ hρ (c + 1)
  rw [div_le_div_iff hd hd1]
  have hnum_succ : utilNum ρ (c + 1) = utilNum ρ c + ρ ^ (c + 1) / (Nat.factorial c : α) := by
    unfold utilNum
    rw [Finset.sum_Icc_succ_top (by omega : 1 ≤ c + 1)]
    norm_num
  have hden_succ : utilDen ρ (c + 1) =
      utilDen ρ c + ρ ^ (c + 1) / (Nat.factorial (c + 1) : α) := by
    unfold utilDen
    rw [Finset.sum_Icc_succ_top (by omega : 1 ≤ c + 1)]
    ring
  have hx : 0 ≤ ρ ^ (c + 1) / (Nat.factorial (c + 1) : α) :=
    div_nonneg (pow_nonneg hρ _) (Nat.cast_nonneg _)
  have key : utilNum ρ c * (ρ ^ (c + 1) / (Nat.factorial (c + 1) : α)) ≤
      utilDen ρ c * (ρ ^ (c + 1) / (Nat.factorial c : α)) := by
    have h1 : utilNum ρ c * (ρ ^ (c + 1) / (Nat.factorial (c + 1) : α)) ≤
        (((c : α) + 1) * utilDen ρ c) * (ρ ^ (c + 1) / (Nat.factorial (c + 1) : α)) :=
      mul_le_mul_of_nonneg_right (utilNum_le ρ hρ c) hx
    have hfne : (Nat.factorial c : α) ≠ 0 := Nat.cast_ne_zero.mpr (Nat.factorial_ne_zero c)
    have hc1 : ((c : α) + 1) ≠ 0 := by positivity
    have h2 : (((c : α) + 1) * utilDen ρ c) * (ρ ^ (c + 1) / (Nat.factorial (c + 1) : α)) =
        utilDen ρ c * (ρ ^ (c + 1) / (Nat.factorial c : α)) := by
      have hfact : (Nat.factorial (c + 1) : α) = ((c : α) + 1) * (Nat.factorial c : α) := by
        rw [Nat.factorial_succ]
        push_cast
        ring
      rw [hfact]
      field_simp
      ring
    rw [h2] at h1
    exact h1
  calc utilNum ρ c * utilDen ρ (c + 1)
      = utilNum ρ c * utilDen ρ c +
          utilNum ρ c * (ρ ^ (c + 1) / (Nat.factorial (c + 1) : α)) := by
        rw [hden_succ]; ring
    _ ≤ utilNum ρ c * utilDen ρ c +
          utilDen ρ c * (ρ ^ (c + 1) / (Nat.factorial c : α)) := by linarith
    _ = utilNum ρ (c + 1) * utilDen ρ c := by rw [hnum_succ]; ring

/-- C7: for non-negative effective arrival rate and mean charging time,
`expected_utilization` is non-decreasing in the station count, all other
attributes held fixed. -/
theorem expected_utilization_mono (s : Site α) (n : ℕ)
    (heff : 0 ≤ s.effective_arrival_rate) (htime : 0 ≤ s.mean_charging_time) :
    Site.expected_utilization { s with num_charging_stations := n } ≤
      Site.expected_utilization { s with num_charging_stations := n + 1 } :=
  util_ratio_mono _ (mul_nonneg heff htime) n

/-- Witness for C7: the concrete site with load 1 at counts 2 and 3. -/
theorem expected_utilization_mono_w :
    (0:ℚ) ≤ siteW.effective_arrival_rate ∧ (0:ℚ) ≤ siteW.mean_charging_time ∧
      Site.expected_utilization { siteW with num_charging_stations := 2 } ≤
        Site.expected_utilization { siteW with num_charging_stations := 3 } :=
  ⟨by decide, by decide, expected_utilization_mono siteW 2 (by decide) (by decide)⟩

/-- C1: the feasibility predicate of the source disagrees with the
specification: a single site with 1 station (bounds [0, 5]), no reference
locations and budget 2 satisfies all four specified conditions, but
`_is_feasible` compares the total against `budget & 1 = 0` and returns
false. -/
theorem is_feasible_bitand_bug :
    is_feasible 2 [siteA] = false ∧ is_feasible_spec 2 [siteA] [] = true := by
  decide

/-- C5: summing binary slot values yields a non-negative integer. -/
theorem relaxed_station_count_nonneg_int (z : ℕ → ℕ → ℚ) (numStations i : ℕ)
    (hbin : ∀ k < numStations, z i k = 0 ∨ z i k = 1) :
    ∃ m : ℕ, relaxed_station_count z numStations i = (m : ℚ) ∧
      0 ≤ relaxed_station_count z numStations i := by
  have main : ∀ n, (∀ k < n, z i k = 0 ∨ z i k = 1) →
      ∃ m : ℕ, (∑ k in Finset.range n, z i k) = (m : ℚ) := by
    intro n
    induction n with
    | zero => exact fun _ => ⟨0, by simp⟩
    | succ n ih =>
      intro hb
      obtain ⟨m, hm⟩ := ih fun k hk => hb k (by omega)
      rw [Finset.sum_range_succ, hm]
      rcases hb n (by omega) with h0 | h1
      · exact ⟨m, by rw [h0]; simp⟩
      · exact ⟨m + 1, by rw [h1]; push_cast; ring⟩
  obtain ⟨m, hm⟩ := main numStations hbin
  exact ⟨m, hm, by rw [show relaxed_station_count z numStations i =
    ∑ k in Finset.range numStations, z i k from rfl, hm]; exact Nat.cast_nonneg m⟩

/-- Witness for C5: two slots, the first selected. -/
theorem relaxed_station_count_nonneg_int_w :
    (∀ k < 2, zBin 0 k = 0 ∨ zBin 0 k = 1) ∧
      ∃ m : ℕ, relaxed_station_count zBin 2 0 = (m : ℚ) ∧
        0 ≤ relaxed_station_count zBin 2 0 :=
  ⟨by decide, relaxed_station_count_nonneg_int zBin 2 0 (by decide)⟩

/-! Adjusted capacity cap (C3). -/

/-- The minimum of a one-element list. -/
theorem listMin_single (x : ℝ) : listMin [x] = x := rfl

/-- The minimum of a two-element list. -/
theorem listMin_pair (x y : ℝ) : listMin [x, y] = min x y := rfl

/-- Appending one element to a non-empty list takes the minimum with it. -/
theorem listMin_append_single (l : List ℝ) (x : ℝ) (hl : l ≠ []) :
    listMin (l ++ [x]) = min (listMin l) x := by
  induction l with
  | nil => exact absurd rfl hl
  | cons a l ih =>
    cases l with
    | nil => rfl
    | cons b l2 =>
      have h1 : listMin ((a :: b :: l2) ++ [x]) = min a (listMin ((b :: l2) ++ [x])) := rfl
      rw [h1, ih (by simp)]
      rw [show listMin (a :: b :: l2) = min a (listMin (b :: l2)) from rfl]
      rw [min_assoc]

/-- The minimum of a non-empty list bounds each of its elements. -/
theorem listMin_le_mem (l : List ℝ) (x : ℝ) (hx : x ∈ l) : listMin l ≤ x := by
  induction l with
  | nil => cases hx
  | cons a l ih =>
    cases l with
    | nil =>
      have hxa : x = a := by simpa using hx
      rw [hxa, listMin_single]
    | cons b l2 =>
      rw [show listMin (a :: b :: l2) = min a (listMin (b :: l2)) from rfl]
      rcases List.mem_cons.mp hx with h | h
      · rw [h]
        exact min_le_left _ _
      · exact le_trans (min_le_right _ _) (ih h)

/-- The minimum of a non-empty list is one of its elements. -/
theorem listMin_mem (l : List ℝ) (hl : l ≠ []) : listMin l ∈ l := by
  induction l with
  | nil => exact absurd rfl hl
  | cons a l ih =>
    cases l with
    | nil => simp [listMin_single]
    | cons b l2 =>
      rw [show listMin (a :: b :: l2) = min a (listMin (b :: l2)) from rfl]
      rcases le_total a (listMin (b :: l2)) with h | h
      · rw [min_eq_left h]
        exact List.mem_cons_self _ _
      · rw [min_eq_right h]
        exact List.mem_cons_of_mem _ (ih (by simp))

/-- The minimum of `f` mapped over `List.range n` is the `Finset` infimum. -/
theorem listMin_map_range (f : ℕ → ℝ) (n : ℕ) (hn : (Finset.range n).Nonempty) :
    listMin ((List.range n).map f) = (Finset.range n).inf' hn f := by
  have hn0 : n ≠ 0 := Finset.nonempty_range_iff.mp hn
  have hne : (List.range n).map f ≠ [] := by
    simp [List.range_eq_nil, hn0]
  apply le_antisymm
  · apply Finset.le_inf'
    intro j hj
    exact listMin_le_mem _ _ (List.mem_map_of_mem f (List.mem_range.mpr (Finset.mem_range.mp hj)))
  · obtain ⟨j, hj, hfj⟩ := List.mem_map.mp (listMin_mem _ hne)
    rw [← hfj]
    exact Finset.inf'_le f (Finset.mem_range.mpr (List.mem_range.mp hj))

/-- C3 counterexample: with two sites at distance 1 (`D2`), `gamma = 1`,
`epsilon = 1/20` and `max_capacity = 10`, the code's adjusted cap for site 0
is `1/20` (the row minimum includes the zero self-distance, contributing
`epsilon * exp 0 = epsilon`), while the cap over the other sites only is
`exp 1 / 20`. -/
theorem adjusted_max_capacity_cex :
    adjusted_max_capacity 1 (1/20) D2 sitesR2 0 ≠
      adjusted_max_capacity_spec 1 (1/20) D2 sitesR2 0 := by
  have hD00 : D2 0 0 = 0 := rfl
  have hD01 : D2 0 1 = 1 := rfl
  have hexp0 : (1/20 : ℝ) * Real.exp (1 * D2 0 0 ^ 2) = 1/20 := by
    rw [hD00]
    norm_num [Real.exp_zero]
  have hexp1 : (1/20 : ℝ) * Real.exp (1 * D2 0 1 ^ 2) = Real.exp 1 / 20 := by
    rw [hD01]
    norm_num
    ring
  have hgt : (2.7182818283 : ℝ) < Real.exp 1 := Real.exp_one_gt_d9
  have hlt : Real.exp 1 < 2.7182818286 := Real.exp_one_lt_d9
  have hlhs : adjusted_max_capacity 1 (1/20) D2 sitesR2 0 = 1/20 := by
    unfold adjusted_max_capacity
    rw [show List.length sitesR2 = 2 from rfl, show List.range 2 = [0, 1] from rfl,
      List.map_cons, List.map_cons, List.map_nil, listMin_pair, hexp0, hexp1,
      show maxCapAt sitesR2 0 = 10 from rfl]
    have h1 : min (1/20 : ℝ) (Real.exp 1 / 20) = 1/20 := min_eq_left (by linarith)
    rw [h1]
    exact min_eq_right (by push_cast; linarith)
  have hrhs : adjusted_max_capacity_spec 1 (1/20) D2 sitesR2 0 = Real.exp 1 / 20 := by
    unfold adjusted_max_capacity_spec
    rw [show List.length sitesR2 = 2 from rfl, show List.range 2 = [0, 1] from rfl]
    rw [show List.filter (fun j => decide (j ≠ 0)) [0, 1] = [1] from rfl]
    rw [List.map_cons, List.map_nil, listMin_single, hexp1,
      show maxCapAt sitesR2 0 = 10 from rfl]
    exact min_eq_right (by push_cast; linarith)
  rw [hlhs, hrhs]
  intro h
  nlinarith

/-- C3 amended: the adjusted per-site cap is the smaller of the site's
`max_capacity` and `epsilon` times the minimum of `exp(gamma * distance^2)`
over all sites `j`, including `j = i` itself (whose zero self-distance makes
that term `epsilon * exp 0 = epsilon`). -/
theorem adjusted_max_capacity_eq_inf (gamma epsilon : ℝ) (D : ℕ → ℕ → ℝ)
    (sites : List (Site ℝ)) (i : ℕ) (hne : (Finset.range sites.length).Nonempty) :
    adjusted_max_capacity gamma epsilon D sites i =
      min (maxCapAt sites i : ℝ)
        ((Finset.range sites.length).inf' hne fun j => epsilon * Real.exp (gamma * D i j ^ 2)) := by
  unfold adjusted_max_capacity
  rw [listMin_map_range _ _ hne]

/-- Witness for the amended C3 on the concrete two-site network. -/
theorem adjusted_max_capacity_eq_inf_w :
    adjusted_max_capacity 1 (1/20) D2 sitesR2 0 =
      min (maxCapAt sitesR2 0 : ℝ)
        ((Finset.range sitesR2.length).inf' ⟨0, by decide⟩
          fun j => (1/20 : ℝ) * Real.exp (1 * D2 0 j ^ 2)) :=
  adjusted_max_capacity_eq_inf 1 (1/20) D2 sitesR2 0 ⟨0, by decide⟩

/-! Static accessors are unchanged by count writes and rate refreshes. -/

/-- Fixed cost is unchanged by `setCount`. -/
theorem fixedAt_setCount (l : List (Site α)) (i n k : ℕ) :
    fixedAt (setCount l i n) k = fixedAt l k :=
  accessor_setCount Site.fixed_cost 0 (fun _ _ => rfl) l i n k

/-- Variable cost is unchanged by `setCount`. -/
theorem varCostAt_setCount (l : List (Site α)) (i n k : ℕ) :
    varCostAt (setCount l i n) k = varCostAt l k :=
  accessor_setCount Site.variable_cost 0 (fun _ _ => rfl) l i n k

/-- Unit revenue is unchanged by `setCount`. -/
theorem revAt_setCount (l : List (Site α)) (i n k : ℕ) :
    revAt (setCount l i n) k = revAt l k :=
  accessor_setCount Site.unit_revenue 0 (fun _ _ => rfl) l i n k

/-- Arrival rate is unchanged by `setCount`. -/
theorem arrivalAt_setCount (l : List (Site α)) (i n k : ℕ) :
    arrivalAt (setCount l i n) k = arrivalAt l k :=
  accessor_setCount Site.arrival_rate 0 (fun _ _ => rfl) l i n k

/-- Mean charging time is unchanged by `setCount`. -/
theorem timeAt_setCount (l : List (Site α)) (i n k : ℕ) :
    timeAt (setCount l i n) k = timeAt l k :=
  accessor_setCount Site.mean_charging_time 0 (fun _ _ => rfl) l i n k

/-- Maximum capacity is unchanged by `setCount`. -/
theorem maxCapAt_setCount (l : List (Site α)) (i n k : ℕ) :
    maxCapAt (setCount l i n) k = maxCapAt l k :=
  accessor_setCount Site.max_capacity 0 (fun _ _ => rfl) l i n k

/-- Minimum capacity is unchanged by `setCount`. -/
theorem minCapAt_setCount (l : List (Site α)) (i n k : ℕ) :
    minCapAt (setCount l i n) k = minCapAt l k :=
  accessor_setCount Site.min_capacity 0 (fun _ _ => rfl) l i n k

/-- Fixed cost is unchanged by `update_eff_rates`. -/
theorem fixedAt_update (W : ℕ → ℕ → α) (l : List (Site α)) (k : ℕ) :
    fixedAt (update_eff_rates W l) k = fixedAt l k :=
  accessor_update Site.fixed_cost 0 (fun _ _ => rfl) W l k

/-- Variable cost is unchanged by `update_eff_rates`. -/
theorem varCostAt_update (W : ℕ → ℕ → α) (l : List (Site α)) (k : ℕ) :
    varCostAt (update_eff_rates W l) k = varCostAt l k :=
  accessor_update Site.variable_cost 0 (fun _ _ => rfl) W l k

/-- Unit revenue is unchanged by `update_eff_rates`. -/
theorem revAt_update (W : ℕ → ℕ → α) (l : List (Site α)) (k : ℕ) :
    revAt (update_eff_rates W l) k = revAt l k :=
  accessor_update Site.unit_revenue 0 (fun _ _ => rfl) W l k

/-- Arrival rate is unchanged by `update_eff_rates`. -/
theorem arrivalAt_update (W : ℕ → ℕ → α) (l : List (Site α)) (k : ℕ) :
    arrivalAt (update_eff_rates W l) k = arrivalAt l k :=
  accessor_update Site.arrival_rate 0 (fun _ _ => rfl) W l k

/-- Mean charging time is unchanged by `update_eff_rates`. -/
theorem timeAt_update (W : ℕ → ℕ → α) (l : List (Site α)) (k : ℕ) :
    timeAt (update_eff_rates W l) k = timeAt l k :=
  accessor_update Site.mean_charging_time 0 (fun _ _ => rfl) W l k

/-- Maximum capacity is unchanged by `update_eff_rates`. -/
theorem maxCapAt_update (W : ℕ → ℕ → α) (l : List (Site α)) (k : ℕ) :
    maxCapAt (update_eff_rates W l) k = maxCapAt l k :=
  accessor_update Site.max_capacity 0 (fun _ _ => rfl) W l k

/-- Minimum capacity is unchanged by `update_eff_rates`. -/
theorem minCapAt_update (W : ℕ → ℕ → α) (l : List (Site α)) (k : ℕ) :
    minCapAt (update_eff_rates W l) k = minCapAt l k :=
  accessor_update Site.min_capacity 0 (fun _ _ => rfl) W l k

/-- Out-of-range access yields count 0. -/
theorem countAt_oob (l : List (Site α)) (k : ℕ) (h : l.length ≤ k) : countAt l k = 0 := by
  simp [countAt, List.getElem?_eq_none h]

/-- `SameShape` is reflexive. -/
theorem sameShape_refl (s : List (Site α)) : SameShape s s :=
  ⟨rfl, fun _ => rfl, fun _ => rfl, fun _ => rfl, fun _ => rfl, fun _ => rfl,
    fun _ => rfl, fun _ => rfl⟩

/-- `SameShape` is symmetric. -/
theorem sameShape_symm {s t : List (Site α)} (h : SameShape s t) : SameShape t s := by
  obtain ⟨h0, h1, h2, h3, h4, h5, h6, h7⟩ := h
  exact ⟨h0.symm, fun k => (h1 k).symm, fun k => (h2 k).symm, fun k => (h3 k).symm,
    fun k => (h4 k).symm, fun k => (h5 k).symm, fun k => (h6 k).symm, fun k => (h7 k).symm⟩

/-- `setCount` on the right preserves `SameShape`. -/
theorem sameShape_setCount {s t : List (Site α)} (h : SameShape s t) (i n : ℕ) :
    SameShape s (setCount t i n) := by
  obtain ⟨h0, h1, h2, h3, h4, h5, h6, h7⟩ := h
  exact ⟨by rw [h0, length_setCount],
    fun k => (h1 k).trans (fixedAt_setCount t i n k).symm,
    fun k => (h2 k).trans (varCostAt_setCount t i n k).symm,
    fun k => (h3 k).trans (revAt_setCount t i n k).symm,
    fun k => (h4 k).trans (arrivalAt_setCount t i n k).symm,
    fun k => (h5 k).trans (timeAt_setCount t i n k).symm,
    fun k => (h6 k).trans (maxCapAt_setCount t i n k).symm,
    fun k => (h7 k).trans (minCapAt_setCount t i n k).symm⟩

/-- `update_eff_rates` on the right preserves `SameShape`. -/
theorem sameShape_update {s t : List (Site α)} (h : SameShape s t) (W : ℕ → ℕ → α) :
    SameShape s (update_eff_rates W t) := by
  obtain ⟨h0, h1, h2, h3, h4, h5, h6, h7⟩ := h
  exact ⟨by rw [h0, length_update_eff_rates],
    fun k => (h1 k).trans (fixedAt_update W t k).symm,
    fun k => (h2 k).trans (varCostAt_update W t k).symm,
    fun k => (h3 k).trans (revAt_update W t k).symm,
    fun k => (h4 k).trans (arrivalAt_update W t k).symm,
    fun k => (h5 k).trans (timeAt_update W t k).symm,
    fun k => (h6 k).trans (maxCapAt_update W t k).symm,
    fun k => (h7 k).trans (minCapAt_update W t k).symm⟩

/-- `setCount` applied to both sides of a `SameShape` pair. -/
theorem sameShape_setCount_both {s t : List (Site α)} (h : SameShape s t) (i n : ℕ) :
    SameShape (setCount s i n) (setCount t i n) :=
  sameShape_setCount (sameShape_symm (sameShape_setCount (sameShape_symm h) i n)) i n

/-- Total profit after a rate refresh only depends on statics and counts. -/
theorem total_profit_update_congr (W : ℕ → ℕ → α) {s t : List (Site α)}
    (hsh : SameShape s t) (hcnt : ∀ k, countAt s k = countAt t k) :
    total_profit (update_eff_rates W s) = total_profit (update_eff_rates W t) := by
  obtain ⟨hlen, h1, h2, h3, h4, h5, _, _⟩ := hsh
  rw [total_profit_eq_sum, total_profit_eq_sum, length_update_eff_rates,
    length_update_eff_rates, hlen]
  refine Finset.sum_congr rfl fun i hi => ?_
  have hit : i < t.length := Finset.mem_range.mp hi
  have his : i < s.length := by rw [hlen]; exact hit
  rw [profitAt_update W s i his, profitAt_update W t i hit, hcnt i, h1 i, h2 i, h3 i,
    h4 i, h5 i, spillSum_congr hlen hcnt]

/-- Counts after the double write agree whenever the starting counts agree
away from the two written positions and the lengths agree. -/
theorem counts_setCount_two {s t : List (Site α)} (si ni c1 c2 : ℕ)
    (hlen : s.length = t.length)
    (haway : ∀ k, k ≠ si → k ≠ ni → countAt s k = countAt t k) (k : ℕ) :
    countAt (setCount (setCount s si c1) ni c2) k =
      countAt (setCount (setCount t si c1) ni c2) k := by
  have hoob : ∀ k, s.length ≤ k → countAt s k = countAt t k := fun k hk => by
    rw [countAt_oob s k hk, countAt_oob t k (by omega)]
  rw [countAt_setCount, countAt_setCount, countAt_setCount, countAt_setCount,
    length_setCount, length_setCount, hlen]
  by_cases hni : ni = k
  · rw [if_pos hni, if_pos hni]
    by_cases hlt : ni < t.length
    · rw [if_pos hlt, if_pos hlt]
    · rw [if_neg hlt, if_neg hlt]
      by_cases hsi : si = k
      · rw [if_pos hsi, if_pos hsi]
        by_cases hlt2 : si < t.length
        · rw [if_pos hlt2, if_pos hlt2]
        · rw [if_neg hlt2, if_neg hlt2]
          exact hoob k (by omega)
      · rw [if_neg hsi, if_neg hsi]
        exact hoob k (by omega)
  · rw [if_neg hni, if_neg hni]
    by_cases hsi : si = k
    · rw [if_pos hsi, if_pos hsi]
      by_cases hlt2 : si < t.length
      · rw [if_pos hlt2, if_pos hlt2]
      · rw [if_neg hlt2, if_neg hlt2]
        exact hoob k (by omega)
    · rw [if_neg hsi, if_neg hsi]
      exact haway k (Ne.symm hsi) (Ne.symm hni)

/-- The loop invariant holds at entry of the candidate loop, provided the
entry state has consistent effective rates (as it always does in the program:
`_optimize_pair` runs only after `_solve_relaxation` or a previous
`_optimize_pair`, both of which end with a rate refresh). -/
theorem pairInv_init (W : ℕ → ℕ → α) (pre : List (Site α)) (si ni : ℕ)
    (hcons : update_eff_rates W pre = pre) :
    PairInv W pre si ni (optPairInit pre si ni) := by
  refine ⟨sameShape_refl pre, fun _ _ _ => rfl, ?_, le_refl _, Or.inl rfl⟩
  show total_profit pre =
    total_profit (update_eff_rates W (setCount (setCount pre si (countAt pre si)) ni (countAt pre ni)))
  rw [setCount_self, setCount_self, hcons]

/-- One step of the candidate loop preserves the invariant. -/
theorem pairInv_step (W : ℕ → ℕ → α) (budget : ℕ) (pre : List (Site α)) (si ni : ℕ)
    (a : PairState α) (c : ℕ × ℕ) (ha : PairInv W pre si ni a) :
    PairInv W pre si ni (optPairStep W budget si ni a c) := by
  obtain ⟨hsh, haway, hobj, hle, hbest⟩ := ha
  have hsh1 : SameShape pre (setCount (setCount a.cur si c.1) ni c.2) :=
    sameShape_setCount (sameShape_setCount hsh si c.1) ni c.2
  have haway1 : ∀ k, k ≠ si → k ≠ ni →
      countAt (setCount (setCount a.cur si c.1) ni c.2) k = countAt pre k := by
    intro k hks hkn
    rw [countAt_setCount, if_neg (Ne.symm hkn), countAt_setCount, if_neg (Ne.symm hks)]
    exact haway k hks hkn
  have hcnt : ∀ k, countAt (setCount (setCount a.cur si c.1) ni c.2) k =
      countAt (setCount (setCount pre si c.1) ni c.2) k :=
    counts_setCount_two si ni c.1 c.2 hsh.1.symm (fun k h1 h2 => haway k h1 h2)
  unfold optPairStep
  split
  · split
    · rename_i hfeas himp
      refine ⟨sameShape_update hsh1 W, ?_, ?_, ?_, ?_⟩
      · intro k hks hkn
        rw [countAt_update]
        exact haway1 k hks hkn
      · show total_profit (update_eff_rates W (setCount (setCount a.cur si c.1) ni c.2)) =
          total_profit (update_eff_rates W (setCount (setCount pre si c.1) ni c.2))
        exact total_profit_update_congr W (sameShape_setCount_both
          (sameShape_setCount_both (sameShape_symm hsh) si c.1) ni c.2) hcnt
      · exact le_of_lt (lt_of_le_of_lt hle himp)
      · exact Or.inr (lt_of_le_of_lt hle himp)
    · refine ⟨sameShape_update hsh1 W, ?_, hobj, hle, hbest⟩
      intro k hks hkn
      rw [countAt_update]
      exact haway1 k hks hkn
  · exact ⟨hsh1, haway1, hobj, hle, hbest⟩

/-- The candidate loop preserves the invariant. -/
theorem pairInv_foldl (W : ℕ → ℕ → α) (budget : ℕ) (pre : List (Site α)) (si ni : ℕ)
    (cands : List (ℕ × ℕ)) (a : PairState α) (ha : PairInv W pre si ni a) :
    PairInv W pre si ni (cands.foldl (optPairStep W budget si ni) a) := by
  induction cands generalizing a with
  | nil => exact ha
  | cons c cs ih => exact ih _ (pairInv_step W budget pre si ni a c ha)

/-- In-range optional access composed with the station-count projection. -/
theorem getElem?_map_num (l : List (Site α)) (k : ℕ) (h : k < l.length) :
    (l[k]?).map Site.num_charging_stations = some (countAt l k) := by
  rw [List.getElem?_eq_getElem h]
  simp [countAt, List.getElem?_eq_getElem h]

/-- C4: each `_optimize_pair` call is profit non-decreasing.  Starting from a
rate-consistent state, the returned objective value is at least the entry
total profit, it equals the total profit of the committed state, and when it
equals the entry profit the committed allocation (the station-count vector)
is unchanged. -/
theorem optimize_pair_profit (W : ℕ → ℕ → α) (budget : ℕ) (sites : List (Site α))
    (si ni : ℕ) (hcons : update_eff_rates W sites = sites) :
    total_profit sites ≤ (optimize_pair W budget sites si ni).2 ∧
      (optimize_pair W budget sites si ni).2 =
        total_profit (optimize_pair W budget sites si ni).1 ∧
      ((optimize_pair W budget sites si ni).2 = total_profit sites →
        (optimize_pair W budget sites si ni).1.map Site.num_charging_stations =
          sites.map Site.num_charging_stations) := by
  have hinv : PairInv W sites si ni (optPairRun W budget sites si ni) := by
    unfold optPairRun
    exact pairInv_foldl W budget sites si ni _ _ (pairInv_init W sites si ni hcons)
  obtain ⟨hsh, haway, hobj, hle, hbest⟩ := hinv
  set r := optPairRun W budget sites si ni with hr
  have hfst : (optimize_pair W budget sites si ni).1 =
      update_eff_rates W (setCount (setCount r.cur si r.best.1) ni r.best.2) := rfl
  have hsnd : (optimize_pair W budget sites si ni).2 = r.bestObj := rfl
  have hcommit : r.bestObj =
      total_profit (update_eff_rates W (setCount (setCount r.cur si r.best.1) ni r.best.2)) := by
    rw [hobj]
    exact total_profit_update_congr W (sameShape_setCount_both
        (sameShape_setCount_both hsh si r.best.1) ni r.best.2)
      (counts_setCount_two si ni r.best.1 r.best.2 hsh.1
        (fun k h1 h2 => (haway k h1 h2).symm))
  refine ⟨?_, ?_, ?_⟩
  · rw [hsnd]
    exact hle
  · rw [hsnd, hfst]
    exact hcommit
  · intro heq
    rw [hsnd] at heq
    have hbo : r.best = (countAt sites si, countAt sites ni) := by
      rcases hbest with h | h
      · exact h
      · rw [heq] at h
        exact absurd h (lt_irrefl _)
    have hlenfin : (update_eff_rates W (setCount (setCount r.cur si r.best.1) ni
        r.best.2)).length = sites.length := by
      rw [length_update_eff_rates, length_setCount, length_setCount, hsh.1]
    have hcountfin : ∀ k,
        countAt (update_eff_rates W (setCount (setCount r.cur si r.best.1) ni r.best.2)) k =
          countAt sites k := by
      intro k
      rw [countAt_update, hbo]
      rw [countAt_setCount, countAt_setCount, length_setCount]
      by_cases hni : ni = k
      · rw [if_pos hni]
        by_cases hlt : ni < r.cur.length
        · rw [if_pos hlt, hni]
        · rw [if_neg hlt]
          have hk : sites.length ≤ k := by
            rw [hsh.1]
            omega
          rw [countAt_oob sites k hk]
          by_cases hsi : si = k
          · rw [if_pos hsi]
            by_cases hlt2 : si < r.cur.length
            · rw [if_pos hlt2, show countAt sites si = 0 from countAt_oob sites si
                (by rw [hsh.1]; omega)]
            · rw [if_neg hlt2]
              exact countAt_oob r.cur k (by omega)
          · rw [if_neg hsi]
            exact countAt_oob r.cur k (by omega)
      · rw [if_neg hni]
        by_cases hsi : si = k
        · rw [if_pos hsi]
          by_cases hlt2 : si < r.cur.length
          · rw [if_pos hlt2, hsi]
          · rw [if_neg hlt2]
            have hk : sites.length ≤ k := by
              rw [hsh.1]
              omega
            rw [countAt_oob sites k hk]
            exact countAt_oob r.cur k (by omega)
        · rw [if_neg hsi]
          exact haway k (Ne.symm hsi) (Ne.symm hni)
    rw [hfst]
    apply List.ext_getElem?
    intro k
    rw [List.getElem?_map, List.getElem?_map]
    by_cases hk : k < sites.length
    · rw [getElem?_map_num _ k (by rw [hlenfin]; exact hk), getElem?_map_num _ k hk,
        hcountfin k]
    · rw [List.getElem?_eq_none (by rw [hlenfin]; omega),
        List.getElem?_eq_none (by omega : sites.length ≤ k)]

/-- The two-site rational network has consistent effective rates for
`Wdiag`: refreshing changes nothing. -/
theorem update_eff_rates_sitesC2 : update_eff_rates Wdiag sitesC2 = sitesC2 := by
  have hspill0 : spillSum Wdiag sitesC2 0 1 = 1 := by
    norm_num [spillSum, sitesC2, countAt, Wdiag, siteCa, siteCb,
      show List.range 2 = [0, 1] from rfl]
  apply List.ext_getElem?
  intro k
  rw [getElem?_update_eff_rates]
  rcases k with _ | _ | k
  · rw [show sitesC2[0]? = some siteCa from rfl]
    simp only [Option.map_some']
    norm_num [siteCa, hspill0]
  · rfl
  · rfl

/-- Aliased call on the two-site network: `_optimize_pair(sites[1], sites[1])`
finds no improvement and returns the entry profit of -1. -/
theorem optimize_pair_sitesC2_aliased : (optimize_pair Wdiag 1 sitesC2 1 1).2 = -1 := by
  norm_num [optimize_pair, optPairRun, optPairInit, optPairStep, pairCandidates, rangeIcc,
    setCount, update_eff_rates, spillSum, is_feasible, total_profit, total_charging_stations,
    countAt, minCapAt, maxCapAt, Site.profit, Site.expected_utilization, Site.utilization_factor,
    utilNum, utilDen, sitesC2, siteCa, siteCb, Wdiag,
    List.mapIdx_eq_enum_map, List.enum, List.enumFrom, List.range',
    show List.range 2 = [0, 1] from rfl, show Finset.Icc 1 1 = ({1} : Finset ℕ) from by decide,
    show Finset.Icc 1 0 = (∅ : Finset ℕ) from by decide]

/-- Distinct-pair call on the two-site network: `_optimize_pair(sites[0],
sites[1])` moves the station from site 0 to site 1 and returns profit 1/2. -/
theorem optimize_pair_sitesC2_distinct : (optimize_pair Wdiag 1 sitesC2 0 1).2 = 1/2 := by
  norm_num [optimize_pair, optPairRun, optPairInit, optPairStep, pairCandidates, rangeIcc,
    setCount, update_eff_rates, spillSum, is_feasible, total_profit, total_charging_stations,
    countAt, minCapAt, maxCapAt, Site.profit, Site.expected_utilization, Site.utilization_factor,
    utilNum, utilDen, sitesC2, siteCa, siteCb, Wdiag,
    List.mapIdx_eq_enum_map, List.enum, List.enumFrom, List.range',
    show List.range 2 = [0, 1] from rfl, show Finset.Icc 1 1 = ({1} : Finset ℕ) from by decide,
    show Finset.Icc 1 0 = (∅ : Finset ℕ) from by decide]

/-- Witness for C4 on the concrete two-site rational network (indices 0, 1,
budget 1): the entry state is rate-consistent for `Wdiag` and the three
conjuncts hold there. -/
theorem optimize_pair_profit_w :
    update_eff_rates Wdiag sitesC2 = sitesC2 ∧
      (total_profit sitesC2 ≤ (optimize_pair Wdiag 1 sitesC2 0 1).2 ∧
        (optimize_pair Wdiag 1 sitesC2 0 1).2 =
          total_profit (optimize_pair Wdiag 1 sitesC2 0 1).1 ∧
        ((optimize_pair Wdiag 1 sitesC2 0 1).2 = total_profit sitesC2 →
          (optimize_pair Wdiag 1 sitesC2 0 1).1.map Site.num_charging_stations =
            sitesC2.map Site.num_charging_stations)) :=
  ⟨update_eff_rates_sitesC2,
    optimize_pair_profit Wdiag 1 sitesC2 0 1 update_eff_rates_sitesC2⟩

/-- C2: the pair actually optimized by a local-search iteration is the
distance-weighted sample `j` paired with itself, not the pair `(i, j)`: on
the concrete network `sitesC2` with sampled indices `i = 0`, `j = 1`, the
iteration equals `_optimize_pair` on `(1, 1)` and differs from
`_optimize_pair` on `(0, 1)` (their returned objective values are -1 and
1/2). -/
theorem local_search_iter_self_pair :
    local_search_iter Wdiag 1 sitesC2 0 1 = optimize_pair Wdiag 1 sitesC2 1 1 ∧
      optimize_pair Wdiag 1 sitesC2 1 1 ≠ optimize_pair Wdiag 1 sitesC2 0 1 := by
  refine ⟨rfl, fun h => ?_⟩
  have h2 := congrArg Prod.snd h
  rw [optimize_pair_sitesC2_aliased, optimize_pair_sitesC2_distinct] at h2
  norm_num at h2

end EVNet
